import Mathlib

set_option maxRecDepth 8000

/-!
# Verification of the json-path-craft matching core

This file gives a shallow embedding of the matching/classification/resolution
engine implemented in `src/pages/Index.tsx` and proves properties of it.

Modelling conventions:
* JavaScript strings are Lean `String`s, manipulated through their `List Char`
  representation.  `String.toLowerCase`/`toUpperCase` are modelled by
  `Char.toLower`/`Char.toUpper` (ASCII case mapping, which is what the inputs
  of this program exercise).
* JavaScript numbers are modelled as exact rationals (`ℚ`); every score the
  program computes is a small integer divided by a small integer, far from any
  floating-point boundary behaviour.
* JSON objects are modelled as insertion-ordered association lists; the code
  only consumes the *truthiness* of grant values, so policy sections are
  association lists `List (String × Bool)` recording each key together with
  the truthiness of its value.  `Object.keys` order is the list order.
* The regex-based rewrites of the source are translated rewrite by rewrite;
  each definition notes the regex it implements.
-/

namespace JsonPathCraft

/-! ## Character-level helpers -/

/-- `c` is one of the path separator characters of the split regex
`/[\/\-\._]+/` used for tokenising paths. -/
def isSepChar (c : Char) : Bool :=
  c = '/' || c = '-' || c = '.' || c = '_'

/-- `c` is matched by the regex `\s` as it occurs in the handler-keyword split
`split(/\s+/)` (ASCII whitespace; the only whitespace these strings contain). -/
def isWsChar (c : Char) : Bool :=
  c = ' ' || c = '\t' || c = '\n' || c = '\r' || c = '\x0b' || c = '\x0c'

/-! ## Generic splitting

JavaScript `str.split(/[class]+/).filter(Boolean)` splits on runs of
separator characters and discards empty chunks.  Splitting on every single
separator and then filtering out empty chunks yields the same list, which is
how we implement it. -/

/-- Split accumulator: `cur` is the (reversed) chunk currently being built. -/
def splitGo (p : Char → Bool) : List Char → List Char → List (List Char)
  | [], cur => [cur.reverse]
  | c :: rest, cur =>
      if p c then cur.reverse :: splitGo p rest []
      else splitGo p rest (c :: cur)

/-- `l.split(/[p]+/).filter(Boolean)` : chunks of `l` between runs of
characters satisfying `p`, empty chunks dropped. -/
def splitDrop (p : Char → Bool) (l : List Char) : List (List Char) :=
  (splitGo p l []).filter (fun t => !t.isEmpty)

/-! ## Prefix stripping

`apiPath.replace(/^\/?ctrm-api\/api\/?/, "")` and `.replace(/^\/?api\/?/, "")`:
both optional slashes are matched greedily, so the longest of the four
possible literal prefixes that is present is removed. -/

/-- `.replace(/^\/?ctrm-api\/api\/?/, "")`. -/
def stripCtrm (l : List Char) : List Char :=
  if "/ctrm-api/api/".data.isPrefixOf l then l.drop 14
  else if "/ctrm-api/api".data.isPrefixOf l then l.drop 13
  else if "ctrm-api/api/".data.isPrefixOf l then l.drop 13
  else if "ctrm-api/api".data.isPrefixOf l then l.drop 12
  else l

/-- `.replace(/^\/?api\/?/, "")`. -/
def stripApi (l : List Char) : List Char :=
  if "/api/".data.isPrefixOf l then l.drop 5
  else if "/api".data.isPrefixOf l then l.drop 4
  else if "api/".data.isPrefixOf l then l.drop 4
  else if "api".data.isPrefixOf l then l.drop 3
  else l

/-! ## Version-segment replacement

`.replace(/\/v\d+(\.\d+)?\//g, "/")`.  `matchVer l` attempts to match the
regex at the head of `l`, returning the remainder after the match (the
trailing `/` of the match is consumed, exactly as the JavaScript global
replace does; scanning resumes after it). -/

/-- Match `\/v\d+(\.\d+)?\//` at the head of the list; `some r` is the
remainder after the matched text. -/
def matchVer : List Char → Option (List Char)
  | '/' :: 'v' :: c :: rest =>
      if c.isDigit then
        match rest.dropWhile Char.isDigit with
        | '/' :: r => some r
        | '.' :: d :: r2 =>
            if d.isDigit then
              match r2.dropWhile Char.isDigit with
              | '/' :: r3 => some r3
              | _ => none
            else none
        | _ => none
      else none
  | _ => none

/-- Left-to-right, non-overlapping global replacement of version segments by
`/`.  The fuel argument only serves termination; one unit is spent per
emitted character and every step strictly shrinks the list, so fuel
`l.length` is never exhausted before `l` is. -/
def replaceVersionsAux : Nat → List Char → List Char
  | 0, l => l
  | _ + 1, [] => []
  | n + 1, c :: rest =>
      match matchVer (c :: rest) with
      | some r => '/' :: replaceVersionsAux n r
      | none => c :: replaceVersionsAux n rest

/-- `.replace(/\/v\d+(\.\d+)?\//g, "/")`. -/
def replaceVersions (l : List Char) : List Char :=
  replaceVersionsAux l.length l

/-- No position of `l` matches the version-segment regex. -/
def noVersionSeg (l : List Char) : Bool :=
  l.tails.all (fun s => (matchVer s).isNone)

/-! ## Edge-slash stripping

`.replace(/^\/|\/$/g, "")` removes one leading and one trailing slash (the
two matches are found in the original string and never overlap). -/

/-- `.replace(/^\/|\/$/g, "")`. -/
def stripEdgeSlashes (l : List Char) : List Char :=
  let l1 := match l with
    | '/' :: rest => rest
    | other => other
  if l1.getLast? = some '/' then l1.dropLast else l1

/-! ## The two normalisation pipelines of the matcher -/

/-- `apiClean` inside `findBestPolicyMatchWithScore`:
`apiPath.toLowerCase().replace(/^\/?ctrm-api\/api\/?/, "")
  .replace(/^\/?api\/?/, "").replace(/\/v\d+(\.\d+)?\//g, "/")
  .replace(/^\/|\/$/g, "")`. -/
def normalizeList (l : List Char) : List Char :=
  stripEdgeSlashes (replaceVersions (stripApi (stripCtrm (l.map Char.toLower))))

/-- String-level wrapper of `normalizeList` (the observation-path normaliser). -/
def normalizePath (s : String) : String :=
  ⟨normalizeList s.data⟩

/-- `pClean` inside the candidate loop:
`policyPath.toLowerCase().replace(/^\/|\/$/g, "")`. -/
def policyClean (s : String) : List Char :=
  stripEdgeSlashes (s.data.map Char.toLower)

/-- Path tokenisation `split(/[\/\-\._]+/).filter(Boolean)`. -/
def tokensOf (l : List Char) : List (List Char) :=
  splitDrop isSepChar l

/-! ## Longest common substring

The source computes the longest common contiguous substring length with a
rolling-array dynamic program (`lcsLen`).  We compute the same quantity as
the maximum, over all pairs of suffixes, of the length of their longest
common run starting at position 0; this is exactly the value of the DP. -/

/-- Length of the longest run of equal characters at the heads of `a`, `b`. -/
def headRun : List Char → List Char → Nat
  | a :: as, b :: bs => if a = b then headRun as bs + 1 else 0
  | _, _ => 0

/-- Maximum of a list of naturals (0 for the empty list). -/
def natMax (l : List Nat) : Nat := l.foldr max 0

/-- `lcsLen(a, b)`: longest common contiguous substring length. -/
def lcsLen (a b : List Char) : Nat :=
  natMax (a.tails.map (fun sa => natMax (b.tails.map (fun sb => headRun sa sb))))

/-- `hay.includes(needle)` on strings, as substring containment. -/
def containsSub (hay needle : List Char) : Bool :=
  hay.tails.any (fun t => needle.isPrefixOf t)

/-! ## The route matcher `findBestPolicyMatchWithScore` -/

/-- Method-name keyword extraction inside the matcher:
`javaMethodName.toLowerCase().replace(/([a-z0-9])([A-Z])/g, "$1 $2")
  .replace(/[_\-\.]+/g, " ").split(/\s+/).filter(Boolean)`.
The camel-case split runs on the already-lowercased string, so its pattern
(`[A-Z]` after `[a-z0-9]`) never fires; we still embed it faithfully. -/
def camelSplit : List Char → List Char
  | [] => []
  | [c] => [c]
  | a :: b :: rest =>
      if (a.isLower || a.isDigit) && ('A' ≤ b && b ≤ 'Z') then
        a :: ' ' :: camelSplit (b :: rest)
      else
        a :: camelSplit (b :: rest)

/-- `c` is one of the keyword separators of `replace(/[_\-\.]+/g, " ")`. -/
def isKwSep (c : Char) : Bool :=
  c = '_' || c = '-' || c = '.'

/-- The `methodKeywords` list of the matcher. -/
def methodKeywords (javaMethodName : String) : List (List Char) :=
  splitDrop isWsChar
    ((camelSplit (javaMethodName.data.map Char.toLower)).map
      (fun c => if isKwSep c then ' ' else c))

/-- The raw (integer) score of one candidate policy path:
`overlap * 10 + lcs + methodMatchScore`. -/
def scoreOf (apiClean : List Char) (apiTokens keywords : List (List Char))
    (pClean : List Char) (pTokens : List (List Char)) : Nat :=
  let overlap := apiTokens.countP (fun t => pTokens.contains t)
  let methodMatchScore :=
    5 * keywords.countP (fun kw => decide (3 < kw.length) && containsSub pClean kw)
  let lcs := lcsLen apiClean pClean
  overlap * 10 + lcs + methodMatchScore

/-- The running best candidate of the `for` loop. -/
structure BestCand where
  path : String
  score : Nat
  tieBreak : Nat
deriving DecidableEq

/-- `if (!best || score > best.score || (score === best.score && tieBreak >
best.tieBreak)) best = {...}`. -/
def updateBest (b : Option BestCand) (p : String) (sc tb : Nat) : Option BestCand :=
  match b with
  | none => some ⟨p, sc, tb⟩
  | some old =>
      if sc > old.score ∨ (sc = old.score ∧ tb > old.tieBreak) then some ⟨p, sc, tb⟩
      else some old

/-- The matcher's return value `{ path, score }` (`path: null` = no match). -/
structure MatchResult where
  path : Option String
  score : ℚ
deriving DecidableEq

/-- The candidate loop of `findBestPolicyMatchWithScore`, including the
exact-match early return and the final score normalisation
`best.score / maxPossibleScore` (the source computes
`normalizedScore = 1 - best.score / maxPossibleScore` and then returns
`1 - normalizedScore`, which cancels to `best.score / maxPossibleScore`). -/
def findLoop (apiClean : List Char) (apiTokens keywords : List (List Char))
    (maxPossible : ℚ) : List String → Option BestCand → MatchResult
  | [], none => ⟨none, 1⟩
  | [], some b => ⟨some b.path, (b.score : ℚ) / maxPossible⟩
  | p :: rest, b =>
      let pClean := policyClean p
      if pClean = apiClean then ⟨some p, 0⟩
      else
        findLoop apiClean apiTokens keywords maxPossible rest
          (updateBest b p (scoreOf apiClean apiTokens keywords pClean (tokensOf pClean))
            pClean.length)

/-- `maxPossibleScore = apiTokens.length * 10 + apiClean.length + 50`
(the `+ 50` is the budget for the method-name bonus). -/
def theoMax (apiPath : String) : Nat :=
  (tokensOf (normalizeList apiPath.data)).length * 10
    + (normalizeList apiPath.data).length + 50

/-- `findBestPolicyMatchWithScore(apiPath, javaMethodName, policyPaths)`. -/
def findBestPolicyMatchWithScore (apiPath javaMethodName : String)
    (policyPaths : List String) : MatchResult :=
  if apiPath = "" ∨ policyPaths = [] then ⟨none, 1⟩
  else
    let apiClean := normalizeList apiPath.data
    let keywords := methodKeywords javaMethodName
    let apiTokens := tokensOf apiClean
    findLoop apiClean apiTokens keywords ((theoMax apiPath : Nat) : ℚ) policyPaths none

/-! ### A rational-free evaluator for the matcher

Kernel reduction (`decide`) cannot evaluate `ℚ` arithmetic, so we pair the
matcher with an evaluator that stops just before the final division and prove
(`findBest_eq_eval`, below in the theorem section) that the matcher is its
image.  All concrete computations go through the evaluator. -/

/-- Outcome of the candidate loop before the final score normalisation. -/
inductive LoopRes where
  /-- A policy path normalised identically: early return with score `0.0`. -/
  | exact (p : String)
  /-- No candidate was scored (empty input or empty candidate list). -/
  | noCand
  /-- The loop finished with `b` as the best candidate. -/
  | best (b : BestCand)
deriving DecidableEq

/-- Rational-free copy of `findLoop`. -/
def findLoopNat (apiClean : List Char) (apiTokens keywords : List (List Char)) :
    List String → Option BestCand → LoopRes
  | [], none => .noCand
  | [], some b => .best b
  | p :: rest, b =>
      let pClean := policyClean p
      if pClean = apiClean then .exact p
      else
        findLoopNat apiClean apiTokens keywords rest
          (updateBest b p (scoreOf apiClean apiTokens keywords pClean (tokensOf pClean))
            pClean.length)

/-- Rational-free copy of `findBestPolicyMatchWithScore`. -/
def findBestEval (apiPath javaMethodName : String) (policyPaths : List String) :
    LoopRes :=
  if apiPath = "" ∨ policyPaths = [] then .noCand
  else
    findLoopNat (normalizeList apiPath.data) (tokensOf (normalizeList apiPath.data))
      (methodKeywords javaMethodName) policyPaths none

/-! ## The permission classifier `determineAccessType` -/

/-- `javaMethodName.toString().toLowerCase().includes(s)` on the lowered name. -/
def nameHas (method : List Char) (s : String) : Bool :=
  containsSub method s.data

/-- `determineAccessType(javaMethodName, httpMethod)`: the ordered rule
cascade, first match wins, translated condition by condition. -/
def determineAccessType (javaMethodName httpMethod : String) : Option String :=
  if javaMethodName = "" then none
  else
    let method := javaMethodName.data.map Char.toLower
    let http := httpMethod.data.map Char.toUpper
    let isHttp := fun (s : String) => http = s.data
    if nameHas method "copy" && (isHttp "POST" || isHttp "GET") then some "create"
    else if nameHas method "delete" &&
        (isHttp "POST" || isHttp "GET" || isHttp "DELETE") then some "edit"
    else if nameHas method "import" && (isHttp "POST" || isHttp "GET") then some "create"
    else if (nameHas method "unpost" || nameHas method "deallocate") &&
        (isHttp "POST" || isHttp "GET") then some "create"
    else if nameHas method "save" && (isHttp "POST" || isHttp "GET") then some "create"
    else if nameHas method "update" && (isHttp "POST" || isHttp "GET") then some "edit"
    else if (nameHas method "load" || nameHas method "check") &&
        (isHttp "POST" || isHttp "GET") then some "read"
    else if nameHas method "is" && (isHttp "POST" || isHttp "GET") then some "read"
    else if nameHas method "get" && (isHttp "GET" || isHttp "POST") then some "read"
    else if isHttp "DELETE" then some "edit"
    else if isHttp "PUT" then some "edit"
    else if isHttp "POST" then some "create"
    else if isHttp "GET" then some "read"
    else none

/-! ## The policy resolver

A policy entry is a JSON object; the code consults the sections
`"Grid Access"`, `"Action"`, `"Toolbar"` and `"widgets"`.  Each section is an
object whose values the code only ever tests for truthiness, so we model a
section as an insertion-ordered association list `List (String × Bool)`
(key, truthiness of its value).  An absent section, or a section that is not
an object (`typeof sec !== "object"`), is `none`. -/

/-- The four sections of a policy entry the resolver can consult. -/
structure PolicyEntry where
  gridAccess : Option (List (String × Bool))
  action : Option (List (String × Bool))
  toolbar : Option (List (String × Bool))
  widgets : Option (List (String × Bool))
deriving DecidableEq

/-- `sec[k]` is truthy: the key is present and its value is truthy. -/
def truthyKey (sec : List (String × Bool)) (k : String) : Bool :=
  match sec.find? (fun p => p.1 == k) with
  | some p => p.2
  | none => false

/-- The fixed synonym table (`synonyms[accessType] || []`). -/
def synonymsFor (accessType : String) : List String :=
  if accessType = "create" then
    ["create", "save", "createBulk", "saveAndActualizeCost", "import", "add", "copy"]
  else if accessType = "edit" then ["edit", "update", "makeDefault", "delete", "remove"]
  else if accessType = "delete" then ["delete", "remove"]
  else if accessType = "copy" then
    ["copy", "copyBL", "copyQualityDetails", "copyShippingDetails"]
  else if accessType = "read" then ["read", "get", "view", "load", "check", "is"]
  else []

/-- `trySection(sectionName)`: direct truthy key, then first truthy synonym,
then (for a non-empty section) its first declared key. -/
def trySection (bestPolicyMatch accessType sectionName : String)
    (sec? : Option (List (String × Bool))) : Option String :=
  match sec? with
  | none => none
  | some sec =>
      if truthyKey sec accessType then
        some (bestPolicyMatch ++ "." ++ sectionName ++ "." ++ accessType)
      else
        match (synonymsFor accessType).find? (fun c => truthyKey sec c) with
        | some c => some (bestPolicyMatch ++ "." ++ sectionName ++ "." ++ c)
        | none =>
            match sec with
            | [] => none
            | (k, _) :: _ => some (bestPolicyMatch ++ "." ++ sectionName ++ "." ++ k)

/-- The `rolePath` computation performed for a matched entry:
`Grid Access` direct hit, else `trySection` over `Action`, `Toolbar`,
`widgets` combined with `||`. -/
def resolveRolePath (bestPolicyMatch accessType : String) (entry : PolicyEntry) :
    List String :=
  let gridHit := match entry.gridAccess with
    | some sec => truthyKey sec accessType
    | none => false
  if gridHit then [bestPolicyMatch ++ ".Grid Access." ++ accessType]
  else
    let fromAction := trySection bestPolicyMatch accessType "Action" entry.action
    let fromToolbar := trySection bestPolicyMatch accessType "Toolbar" entry.toolbar
    let fromWidgets := trySection bestPolicyMatch accessType "widgets" entry.widgets
    match fromAction.orElse (fun _ => fromToolbar.orElse fun _ => fromWidgets) with
    | some chosen => [chosen]
    | none => []

/-! ### The resolver as the specification words it

For claim C6 we restate the resolver directly from the (amended)
specification text: a single ordered search over the fallback sections, each
section searched by direct key, then synonym table, then first declared key.
`resolveSpec` is written from those words and compared with the translated
code (`resolveRolePath`). -/

/-- One section's grant lookup, as the specification words it. -/
def grantInSection (accessType : String) (sec : List (String × Bool)) :
    Option String :=
  if truthyKey sec accessType then some accessType
  else
    match (synonymsFor accessType).find? (fun c => truthyKey sec c) with
    | some c => some c
    | none => (sec.head?).map (fun p => p.1)

/-- The resolver as the specification describes it: prefer
`Grid Access.<category>`, else the first of `Action`, `Toolbar`, `widgets`
(in that fixed order) that produces a grant key. -/
def resolveSpec (policyPath accessType : String) (entry : PolicyEntry) :
    List String :=
  let gridHit := match entry.gridAccess with
    | some sec => truthyKey sec accessType
    | none => false
  if gridHit then [policyPath ++ ".Grid Access." ++ accessType]
  else
    let sections := [("Action", entry.action), ("Toolbar", entry.toolbar),
      ("widgets", entry.widgets)]
    match sections.findSome? (fun s =>
        s.2.bind (fun sec => (grantInSection accessType sec).map
          (fun k => policyPath ++ "." ++ s.1 ++ "." ++ k))) with
    | some chosen => [chosen]
    | none => []

/-! ## The aggregation loop of `processFiles` -/

/-- One parsed record of the API-monitor document.  Fields the JSON may omit
are modelled as `""` (the code guards every access with `|| ""`). -/
structure ApiMonitorEntry where
  context_path : String
  api : String
  method : String
  java_method_name : String
deriving DecidableEq

/-- One record of the generated output. -/
structure GeneratedItem where
  path : String
  rolePath : List String
  methodType : String
  javaMethodName : String
deriving DecidableEq

/-- The policy document: an insertion-ordered map from policy path to entry
(`Object.keys` enumerates in this order). -/
abbrev PolicyDoc := List (String × PolicyEntry)

/-- `fullPath.replace(/\/{2,}/g, "/")`: collapse runs of slashes. -/
def collapseSlashes : List Char → List Char
  | [] => []
  | [c] => [c]
  | c :: d :: rest =>
      if c = '/' ∧ d = '/' then collapseSlashes (d :: rest)
      else c :: collapseSlashes (d :: rest)

/-- The deduplication key built for an observation: concatenate
`context_path` and `api`, collapse duplicate slashes, force a leading slash,
drop a trailing slash (unless the path is just `/`). -/
def canonPath (e : ApiMonitorEntry) : String :=
  let l0 := collapseSlashes (e.context_path.data ++ e.api.data)
  let l1 := match l0 with
    | '/' :: rest => '/' :: rest
    | other => '/' :: other
  let l2 := if 1 < l1.length ∧ l1.getLast? = some '/' then l1.dropLast else l1
  ⟨l2⟩

/-- `matchResult.score < 0.2 ? matchResult.path : null` for an observation. -/
def bestPolicyOf (doc : PolicyDoc) (e : ApiMonitorEntry) : Option String :=
  let mr := findBestPolicyMatchWithScore (canonPath e) e.java_method_name
    (doc.map Prod.fst)
  if mr.score < (0.2 : ℚ) then mr.path else none

/-- The record stored in `resultsMap` for one (non-duplicate) observation. -/
def processEntry (doc : PolicyDoc) (e : ApiMonitorEntry) : GeneratedItem :=
  let accessType := determineAccessType e.java_method_name e.method
  let rolePath :=
    match bestPolicyOf doc e, accessType with
    | some bp, some cat =>
        match doc.find? (fun p => p.1 == bp) with
        | some pe => resolveRolePath bp cat pe.2
        | none => []
    | _, _ => []
  { path := canonPath e
    rolePath := rolePath
    methodType := if e.method = "" then "UNKNOWN" else e.method
    javaMethodName := e.java_method_name }

/-- The `for` loop over `apiMonitor`: skip an observation whose key is
already in `resultsMap`, otherwise append its record. -/
def aggregateAux (doc : PolicyDoc) : List ApiMonitorEntry → List GeneratedItem →
    List GeneratedItem
  | [], acc => acc
  | e :: rest, acc =>
      if acc.any (fun r => r.path == canonPath e) then aggregateAux doc rest acc
      else aggregateAux doc rest (acc ++ [processEntry doc e])

/-- `computeMatches(observations, policyDoc)`: the generated record list, in
`resultsMap` insertion order. -/
def computeMatches (entries : List ApiMonitorEntry) (doc : PolicyDoc) :
    List GeneratedItem :=
  aggregateAux doc entries []

/-! ### Rational-free evaluator for the aggregation (companion to
`findBestEval`; proved equal to the aggregation in the theorem section). -/

/-- Rational-free copy of `bestPolicyOf`, using the integer comparison
`5 * raw < maxPossible`, which is equivalent to `raw / maxPossible < 0.2`. -/
def bestPolicyEval (doc : PolicyDoc) (e : ApiMonitorEntry) : Option String :=
  match findBestEval (canonPath e) e.java_method_name (doc.map Prod.fst) with
  | .exact p => some p
  | .noCand => none
  | .best b => if 5 * b.score < theoMax (canonPath e) then some b.path else none

/-- Rational-free copy of `processEntry`. -/
def processEntryEval (doc : PolicyDoc) (e : ApiMonitorEntry) : GeneratedItem :=
  let accessType := determineAccessType e.java_method_name e.method
  let rolePath :=
    match bestPolicyEval doc e, accessType with
    | some bp, some cat =>
        match doc.find? (fun p => p.1 == bp) with
        | some pe => resolveRolePath bp cat pe.2
        | none => []
    | _, _ => []
  { path := canonPath e
    rolePath := rolePath
    methodType := if e.method = "" then "UNKNOWN" else e.method
    javaMethodName := e.java_method_name }

/-- Rational-free copy of `aggregateAux`. -/
def aggregateAuxEval (doc : PolicyDoc) : List ApiMonitorEntry →
    List GeneratedItem → List GeneratedItem
  | [], acc => acc
  | e :: rest, acc =>
      if acc.any (fun r => r.path == canonPath e) then aggregateAuxEval doc rest acc
      else aggregateAuxEval doc rest (acc ++ [processEntryEval doc e])

/-- Rational-free copy of `computeMatches`. -/
def computeMatchesEval (entries : List ApiMonitorEntry) (doc : PolicyDoc) :
    List GeneratedItem :=
  aggregateAuxEval doc entries []

end JsonPathCraft

namespace JsonPathCraft

example : normalizePath "/ctrm-api/api/v1/trade/123" = "v1/trade/123" := by decide

example : normalizePath "/api/v2/Trade//x/" = "v2/trade//x" := by decide

example : normalizePath "apiapi" = "api" := by decide

example : normalizePath "api" = "" := by decide

example : normalizeList "a/v1/v2/b".data = "a/v2/b".data := by decide

example : policyClean "/Trade" = "trade".data := by decide

example : tokensOf "v1/trade/123".data = ["v1".data, "trade".data, "123".data] := by decide

example : lcsLen "v1/trade/123".data "trade".data = 5 := by decide

example : methodKeywords "getTradeDetails" = ["gettradedetails".data] := by decide

example :
    findBestEval "/ctrm-api/api/v1/trade/123" "getTradeDetails" ["/trade"] =
      .best ⟨"/trade", 15, 5⟩ := by decide

example : theoMax "/ctrm-api/api/v1/trade/123" = 92 := by decide

example : findBestEval "/trade" "x" ["/foo", "/Trade/"] = .exact "/Trade/" := by decide

example : determineAccessType "copyAndDeleteRecord" "POST" = some "create" := by decide

example : determineAccessType "getTradeDetails" "GET" = some "read" := by decide

example : determineAccessType "foo" "PUT" = some "edit" := by decide

example :
    computeMatchesEval
      [⟨"/ctrm-api", "/api/v1/trade/123", "GET", "getTradeDetails"⟩]
      [("/trade", ⟨some [("read", true)], none, none, none⟩)] =
      [⟨"/ctrm-api/api/v1/trade/123", ["/trade.Grid Access.read"], "GET",
        "getTradeDetails"⟩] := by decide

example :
    (computeMatchesEval
      [⟨"", "/Trade", "GET", "g"⟩, ⟨"", "/trade", "GET", "g"⟩] []).map
        (fun r => r.path) = ["/Trade", "/trade"] := by decide

example :
    computeMatchesEval
      [⟨"", "/trade/", "GET", "a"⟩, ⟨"", "/trade", "POST", "b"⟩] [] =
    computeMatchesEval [⟨"", "/trade/", "GET", "a"⟩] [] := by decide

example :
    resolveRolePath "/p" "read" ⟨some [("read", false)], some [("read", true)],
      none, none⟩ = ["/p.Action.read"] := by decide

example :
    findBestEval "/x"
      "aaab_aaac_aaad_aaae_aaaf_aaag_aaah_aaaj_aaak_aaal_aaam_aaan_aaap"
      ["/aaabaaacaaadaaaeaaafaaagaaahaaajaaakaaalaaamaaanaaap"] =
      .best ⟨"/aaabaaacaaadaaaeaaafaaagaaahaaajaaakaaalaaamaaanaaap", 65, 52⟩ := by
  decide

example : theoMax "/x" = 61 := by decide

example : findBestEval "/trade/123" "" ["/trade"] = .best ⟨"/trade", 15, 5⟩ := by
  decide

example : theoMax "/trade/123" = 79 := by decide

/-! # Theorems

## Bridging the matcher and aggregation to their rational-free evaluators -/

theorem findLoop_eq_nat (apiClean : List Char) (apiTokens keywords : List (List Char))
    (maxPossible : ℚ) (l : List String) (b : Option BestCand) :
    findLoop apiClean apiTokens keywords maxPossible l b =
      match findLoopNat apiClean apiTokens keywords l b with
      | .exact p => ⟨some p, 0⟩
      | .noCand => ⟨none, 1⟩
      | .best bb => ⟨some bb.path, (bb.score : ℚ) / maxPossible⟩ := by
  induction l generalizing b with
  | nil => cases b <;> rfl
  | cons p rest ih =>
      simp only [findLoop, findLoopNat]
      by_cases h : policyClean p = apiClean
      · rw [if_pos h, if_pos h]
      · rw [if_neg h, if_neg h, ih]

theorem findBest_eq_eval (apiPath javaMethodName : String) (pps : List String) :
    findBestPolicyMatchWithScore apiPath javaMethodName pps =
      match findBestEval apiPath javaMethodName pps with
      | .exact p => ⟨some p, 0⟩
      | .noCand => ⟨none, 1⟩
      | .best b => ⟨some b.path, (b.score : ℚ) / ((theoMax apiPath : Nat) : ℚ)⟩ := by
  unfold findBestPolicyMatchWithScore findBestEval
  by_cases h : apiPath = "" ∨ pps = []
  · rw [if_pos h, if_pos h]
  · rw [if_neg h, if_neg h, findLoop_eq_nat]

theorem theoMax_pos (s : String) : 0 < theoMax s := by
  unfold theoMax; omega

theorem nat_div_lt_fifth (n d : Nat) (hd : 0 < d) :
    ((n : ℚ) / (d : ℚ) < 0.2) ↔ 5 * n < d := by
  have hd' : (0:ℚ) < (d:ℚ) := by exact_mod_cast hd
  rw [div_lt_iff₀ hd']
  constructor
  · intro h
    by_contra hc
    push_neg at hc
    have hc' : (d:ℚ) ≤ 5 * (n:ℚ) := by exact_mod_cast hc
    linarith
  · intro h
    have h' : 5 * (n:ℚ) < (d:ℚ) := by exact_mod_cast h
    linarith

theorem bestPolicyOf_eq_eval (doc : PolicyDoc) (e : ApiMonitorEntry) :
    bestPolicyOf doc e = bestPolicyEval doc e := by
  unfold bestPolicyOf bestPolicyEval
  rw [findBest_eq_eval]
  cases h : findBestEval (canonPath e) e.java_method_name (doc.map Prod.fst) with
  | exact p => exact if_pos (by norm_num)
  | noCand => exact if_neg (by norm_num)
  | best b =>
      simp only [nat_div_lt_fifth b.score (theoMax (canonPath e)) (theoMax_pos _)]

theorem processEntry_eq_eval (doc : PolicyDoc) (e : ApiMonitorEntry) :
    processEntry doc e = processEntryEval doc e := by
  unfold processEntry processEntryEval
  rw [bestPolicyOf_eq_eval]

theorem aggregateAux_eq_eval (doc : PolicyDoc) (entries : List ApiMonitorEntry)
    (acc : List GeneratedItem) :
    aggregateAux doc entries acc = aggregateAuxEval doc entries acc := by
  induction entries generalizing acc with
  | nil => rfl
  | cons e rest ih =>
      simp only [aggregateAux, aggregateAuxEval]
      by_cases h : acc.any (fun r => r.path == canonPath e)
      · rw [if_pos h, if_pos h, ih]
      · rw [if_neg h, if_neg h, processEntry_eq_eval, ih]

theorem computeMatches_eq_eval (entries : List ApiMonitorEntry) (doc : PolicyDoc) :
    computeMatches entries doc = computeMatchesEval entries doc :=
  aggregateAux_eq_eval doc entries []

/-! ## The claims -/

/-- C10: for every handler name and HTTP method, the classifier returns
`none`, `create`, `read` or `edit`; the categories `copy` and `delete` are
never produced by any rule or fallback of the cascade. -/
theorem c10_classifier_codomain (javaMethodName httpMethod : String) :
    determineAccessType javaMethodName httpMethod = none ∨
    determineAccessType javaMethodName httpMethod = some "create" ∨
    determineAccessType javaMethodName httpMethod = some "read" ∨
    determineAccessType javaMethodName httpMethod = some "edit" := by
  simp only [determineAccessType]
  have hP : ∀ (p : Prop) [Decidable p] (a b : Option String),
      (a = none ∨ a = some "create" ∨ a = some "read" ∨ a = some "edit") →
      (b = none ∨ b = some "create" ∨ b = some "read" ∨ b = some "edit") →
      ((if p then a else b) = none ∨ (if p then a else b) = some "create" ∨
        (if p then a else b) = some "read" ∨ (if p then a else b) = some "edit") := by
    intro p inst a b ha hb
    split
    · exact ha
    · exact hb
  apply hP
  · simp
  apply hP
  · simp
  apply hP
  · simp
  apply hP
  · simp
  apply hP
  · simp
  apply hP
  · simp
  apply hP
  · simp
  apply hP
  · simp
  apply hP
  · simp
  apply hP
  · simp
  apply hP
  · simp
  apply hP
  · simp
  apply hP
  · simp
  apply hP
  · simp
  simp

/-- C5: the classifier's rules are evaluated in priority order with first
match winning: whenever the lowered handler name contains `"copy"` and the
upper-cased method is `POST`, the result is `create`, whatever other rule
keywords (such as `"delete"`) the handler name also contains. -/
theorem c5_classifier_priority (javaMethodName httpMethod : String)
    (hcopy : nameHas (javaMethodName.data.map Char.toLower) "copy" = true)
    (hhttp : httpMethod.data.map Char.toUpper = "POST".data) :
    determineAccessType javaMethodName httpMethod = some "create" := by
  have hne : javaMethodName ≠ "" := by
    intro h
    subst h
    exact absurd hcopy (by decide)
  unfold determineAccessType
  rw [if_neg hne]
  simp only [hhttp, hcopy]
  simp

/-- Witness for C5 at the input named by the claim: `"copyAndDeleteRecord"`
contains both `"copy"` (rule 1) and `"delete"` (rule 2), and with method
`POST` the result is `create`. -/
theorem c5_classifier_priority_witness :
    nameHas ("copyAndDeleteRecord".data.map Char.toLower) "copy" = true ∧
    nameHas ("copyAndDeleteRecord".data.map Char.toLower) "delete" = true ∧
    determineAccessType "copyAndDeleteRecord" "POST" = some "create" :=
  ⟨by decide, by decide,
    c5_classifier_priority "copyAndDeleteRecord" "POST" (by decide) (by decide)⟩

/-- C2: an observation whose match result has `confidenceScore ≥ 0.2` is
treated as unmatched by the aggregation: no policy path is retained
(`bestPolicyOf` is `none`) and the produced record's `rolePath` is `[]`. -/
theorem c2_confidence_gate (doc : PolicyDoc) (e : ApiMonitorEntry)
    (h : (0.2 : ℚ) ≤ (findBestPolicyMatchWithScore (canonPath e)
      e.java_method_name (doc.map Prod.fst)).score) :
    bestPolicyOf doc e = none ∧ (processEntry doc e).rolePath = [] := by
  have hb : bestPolicyOf doc e = none := by
    unfold bestPolicyOf
    rw [if_neg (not_lt.mpr h)]
  refine ⟨hb, ?_⟩
  unfold processEntry
  rw [hb]

/-- Witness for C2: an observation with no policy candidates gets score
`1 ≥ 0.2` and an empty `rolePath`. -/
theorem c2_confidence_gate_witness :
    (0.2 : ℚ) ≤ (findBestPolicyMatchWithScore (canonPath ⟨"", "/zzz", "GET", "g"⟩)
      "g" (([] : PolicyDoc).map Prod.fst)).score ∧
    bestPolicyOf [] ⟨"", "/zzz", "GET", "g"⟩ = none ∧
    (processEntry [] ⟨"", "/zzz", "GET", "g"⟩).rolePath = [] := by
  have h : (0.2 : ℚ) ≤ (findBestPolicyMatchWithScore
      (canonPath ⟨"", "/zzz", "GET", "g"⟩) "g" (([] : PolicyDoc).map Prod.fst)).score := by
    norm_num [findBestPolicyMatchWithScore]
  exact ⟨h, c2_confidence_gate [] ⟨"", "/zzz", "GET", "g"⟩ h⟩

/-- C3: the end-to-end example: observation `GET getTradeDetails` on
`/ctrm-api` + `/api/v1/trade/123` with policy
`{ "/trade": {"Grid Access": {"read": true}} }` produces exactly one record,
with `rolePath = ["/trade.Grid Access.read"]`. -/
theorem c3_end_to_end_trade :
    computeMatches [⟨"/ctrm-api", "/api/v1/trade/123", "GET", "getTradeDetails"⟩]
      [("/trade", ⟨some [("read", true)], none, none, none⟩)] =
      [⟨"/ctrm-api/api/v1/trade/123", ["/trade.Grid Access.read"], "GET",
        "getTradeDetails"⟩] := by
  rw [computeMatches_eq_eval]
  decide

/-- C1: the matcher does NOT return `1 - raw/max`.  The source computes
`normalizedScore = 1 - best.score / maxPossibleScore` but then returns
`1 - normalizedScore`, i.e. `raw/max`: at `/trade/123` against `["/trade"]`
the raw score is 15 and the maximum 79, and the returned confidence score is
`15/79`, not `1 - 15/79`; moreover the strictly better-matching candidate
`"/trade/12"` (raw score 18) receives a strictly larger (worse) score. -/
theorem c1_score_not_inverted :
    (findBestPolicyMatchWithScore "/trade/123" "" ["/trade"]).score = 15 / 79 ∧
    (15 : ℚ) / 79 ≠ 1 - 15 / 79 ∧
    (findBestPolicyMatchWithScore "/trade/123" "" ["/trade/12"]).score = 18 / 79 := by
  refine ⟨?_, by norm_num, ?_⟩
  · rw [findBest_eq_eval,
      show findBestEval "/trade/123" "" ["/trade"] = .best ⟨"/trade", 15, 5⟩ from by decide,
      show theoMax "/trade/123" = 79 from by decide]
    norm_num
  · rw [findBest_eq_eval,
      show findBestEval "/trade/123" "" ["/trade/12"] = .best ⟨"/trade/12", 18, 8⟩
        from by decide,
      show theoMax "/trade/123" = 79 from by decide]
    norm_num

/-- Helper for C4: if some candidate normalises identically to the cleaned
input, the loop returns the first such candidate with score `0`, whatever the
accumulated best candidate is. -/
theorem findLoop_exact (apiClean : List Char) (apiTokens keywords : List (List Char))
    (maxPossible : ℚ) :
    ∀ (l : List String) (b : Option BestCand),
      (∃ p ∈ l, policyClean p = apiClean) →
      ∃ p ∈ l, policyClean p = apiClean ∧
        findLoop apiClean apiTokens keywords maxPossible l b = ⟨some p, 0⟩ := by
  intro l
  induction l with
  | nil =>
      intro b h
      rcases h with ⟨p, hp, _⟩
      exact absurd hp (List.not_mem_nil p)
  | cons q rest ih =>
      intro b h
      by_cases hq : policyClean q = apiClean
      · refine ⟨q, List.mem_cons_self q rest, hq, ?_⟩
        simp only [findLoop]
        rw [if_pos hq]
      · rcases h with ⟨p, hp, hpc⟩
        rcases List.mem_cons.mp hp with rfl | hp'
        · exact absurd hpc hq
        · rcases ih (updateBest b q
              (scoreOf apiClean apiTokens keywords (policyClean q)
                (tokensOf (policyClean q))) (policyClean q).length) ⟨p, hp', hpc⟩
            with ⟨p', h1, h2, h3⟩
          refine ⟨p', List.mem_cons_of_mem q h1, h2, ?_⟩
          simp only [findLoop]
          rw [if_neg hq]
          exact h3

/-- C4 (amended): for every NON-EMPTY observation path, if some policy path
normalises identically to the normalised observation path, the matcher
returns such a policy path with confidence score `0.0`, regardless of the
scores of all other candidates.  (For the empty observation path the claim
fails, see the counterexample.) -/
theorem c4_exact_match_amended (apiPath javaMethodName : String)
    (pps : List String) (hne : apiPath ≠ "")
    (hex : ∃ p ∈ pps, policyClean p = normalizeList apiPath.data) :
    ∃ p ∈ pps, policyClean p = normalizeList apiPath.data ∧
      findBestPolicyMatchWithScore apiPath javaMethodName pps = ⟨some p, 0⟩ := by
  have hpps : pps ≠ [] := by
    rintro rfl
    rcases hex with ⟨p, hp, _⟩
    exact absurd hp (List.not_mem_nil p)
  unfold findBestPolicyMatchWithScore
  rw [if_neg (by
    rintro (h | h)
    · exact hne h
    · exact hpps h)]
  exact findLoop_exact _ _ _ _ pps none hex

/-- Counterexample for C4 as stated: the empty observation path normalises
to the same string as the policy path `"/"` (both to `""`), yet the matcher
early-returns `{path: null, score: 1.0}` because of its emptiness guard,
instead of `{path: "/", score: 0.0}`. -/
theorem c4_exact_match_counterexample :
    policyClean "/" = normalizeList ("" : String).data ∧
    findBestPolicyMatchWithScore "" "x" ["/"] = ⟨none, 1⟩ := by
  constructor
  · decide
  · rfl

/-- Witness for C4 (amended) at a concrete input: `"/trade"` against
`["/foo", "/Trade/"]`, whose second candidate normalises identically. -/
theorem c4_exact_match_amended_witness :
    ∃ p ∈ ["/foo", "/Trade/"], policyClean p = normalizeList "/trade".data ∧
      findBestPolicyMatchWithScore "/trade" "x" ["/foo", "/Trade/"] = ⟨some p, 0⟩ :=
  c4_exact_match_amended "/trade" "x" ["/foo", "/Trade/"] (by decide)
    ⟨"/Trade/", by decide, by decide⟩

/-- Helper for C6: `trySection` is the section-wise grant lookup the
specification describes. -/
theorem trySection_eq (p cat name : String) (sec? : Option (List (String × Bool))) :
    trySection p cat name sec? =
      sec?.bind (fun sec => (grantInSection cat sec).map
        (fun k => p ++ "." ++ name ++ "." ++ k)) := by
  cases sec? with
  | none => rfl
  | some sec =>
      simp only [trySection, grantInSection, Option.some_bind]
      by_cases h : truthyKey sec cat
      · rw [if_pos h, if_pos h]
        rfl
      · rw [if_neg h, if_neg h]
        cases hf : (synonymsFor cat).find? (fun c => truthyKey sec c) with
        | some c => rfl
        | none =>
            cases sec with
            | nil => rfl
            | cons kv tl => rfl

/-- C6 (amended): the resolver prefers a TRUTHY `Grid Access[category]`
grant; otherwise it searches `Action`, `Toolbar`, `widgets` in that fixed
order, each section first by a truthy direct category key, then by the first
synonym with a truthy value, then (if the section is non-empty) by its first
declared key regardless of value; the first section producing a result wins
and otherwise the role path is empty.  Stated as equality with
`resolveSpec`, the direct transcription of that search order. -/
theorem c6_resolver_amended (policyPath accessType : String) (entry : PolicyEntry) :
    resolveRolePath policyPath accessType entry =
      resolveSpec policyPath accessType entry := by
  unfold resolveRolePath resolveSpec
  refine if_congr Iff.rfl rfl ?_
  rw [trySection_eq, trySection_eq, trySection_eq]
  simp only [List.findSome?_cons, List.findSome?_nil]
  cases entry.action.bind (fun sec =>
      Option.map (fun k => policyPath ++ "." ++ "Action" ++ "." ++ k)
        (grantInSection accessType sec)) <;>
    cases entry.toolbar.bind (fun sec =>
      Option.map (fun k => policyPath ++ "." ++ "Toolbar" ++ "." ++ k)
        (grantInSection accessType sec)) <;>
    cases entry.widgets.bind (fun sec =>
      Option.map (fun k => policyPath ++ "." ++ "widgets" ++ "." ++ k)
        (grantInSection accessType sec)) <;>
    rfl

/-- Counterexample for C6 as stated: a `Grid Access` section that CONTAINS
the category key, but with a falsy value, is skipped; the resolver falls
through to `Action` instead of returning the Grid Access role path. -/
theorem c6_resolver_counterexample :
    (([("read", false)] : List (String × Bool)).any (fun kv => kv.1 == "read")
        = true) ∧
    resolveRolePath "/p" "read"
      ⟨some [("read", false)], some [("read", true)], none, none⟩ =
      ["/p.Action.read"] ∧
    (["/p.Action.read"] : List String) ≠ ["/p.Grid Access.read"] :=
  ⟨by decide, by decide, by decide⟩

/-- Helper for C7: the record built for an observation is keyed by its
canonical path. -/
theorem processEntry_path (doc : PolicyDoc) (e : ApiMonitorEntry) :
    (processEntry doc e).path = canonPath e := rfl

/-- Helper for C7: a later observation whose canonical path equals that of
an earlier observation (or of a record already accumulated) is discarded:
removing it does not change the loop's output. -/
theorem aggregateAux_skip_dup (doc : PolicyDoc) (post : List ApiMonitorEntry)
    (o2 : ApiMonitorEntry) :
    ∀ (xs : List ApiMonitorEntry) (acc : List GeneratedItem),
      (acc.any (fun r => r.path == canonPath o2) = true ∨
        ∃ o ∈ xs, canonPath o = canonPath o2) →
      aggregateAux doc (xs ++ o2 :: post) acc = aggregateAux doc (xs ++ post) acc := by
  intro xs
  induction xs with
  | nil =>
      intro acc h
      rcases h with h | ⟨o, ho, _⟩
      · simp only [List.nil_append, aggregateAux]
        rw [if_pos h]
      · exact absurd ho (List.not_mem_nil o)
  | cons x xs ih =>
      intro acc h
      simp only [List.cons_append, aggregateAux]
      by_cases hc : acc.any (fun r => r.path == canonPath x) = true
      · rw [if_pos hc, if_pos hc]
        apply ih
        rcases h with h | ⟨o, ho, he⟩
        · exact Or.inl h
        · rcases List.mem_cons.mp ho with rfl | ho'
          · left; rw [he] at hc; exact hc
          · exact Or.inr ⟨o, ho', he⟩
      · rw [if_neg hc, if_neg hc]
        apply ih
        rcases h with h | ⟨o, ho, he⟩
        · left
          rw [List.any_append, h]
          rfl
        · rcases List.mem_cons.mp ho with rfl | ho'
          · left
            rw [List.any_append]
            have hx : ((processEntry doc o).path == canonPath o2) = true := by
              rw [processEntry_path, he]
              exact beq_self_eq_true (canonPath o2)
            simp [hx]
          · exact Or.inr ⟨o, ho', he⟩

/-- C7 (amended): two observations whose paths are equal after the
aggregator's canonicalisation (slash collapsing, leading-slash enforcement,
trailing-slash removal — case-SENSITIVE) collapse into a single record: the
later duplicate observation is discarded entirely, so the surviving record
keeps the first-seen handler name and HTTP method.  (Raw paths differing
only in casing do NOT collapse, see the counterexample.) -/
theorem c7_dedup_amended (doc : PolicyDoc) (pre mid post : List ApiMonitorEntry)
    (o1 o2 : ApiMonitorEntry) (h : canonPath o1 = canonPath o2) :
    computeMatches (pre ++ o1 :: mid ++ o2 :: post) doc =
      computeMatches (pre ++ o1 :: mid ++ post) doc := by
  unfold computeMatches
  have hmain := aggregateAux_skip_dup doc post o2 (pre ++ o1 :: mid) []
    (Or.inr ⟨o1, by simp, h⟩)
  simpa [List.append_assoc] using hmain

/-- Witness for C7 (amended): `/trade/` and `/trade` (raw paths differing in
a trailing slash) canonicalise identically and collapse to the first-seen
record. -/
theorem c7_dedup_amended_witness :
    canonPath ⟨"", "/trade/", "GET", "a"⟩ = canonPath ⟨"", "/trade", "POST", "b"⟩ ∧
    computeMatches [⟨"", "/trade/", "GET", "a"⟩, ⟨"", "/trade", "POST", "b"⟩] [] =
      computeMatches [⟨"", "/trade/", "GET", "a"⟩] [] :=
  ⟨by decide,
    c7_dedup_amended [] [] [] [] ⟨"", "/trade/", "GET", "a"⟩
      ⟨"", "/trade", "POST", "b"⟩ (by decide)⟩

/-- Counterexample for C7 as stated: two raw paths differing ONLY in casing
(`/Trade` vs `/trade`) do not collapse — the aggregation keeps two records,
because the deduplication key preserves case. -/
theorem c7_dedup_counterexample :
    "/Trade".data.map Char.toLower = "/trade".data.map Char.toLower ∧
    (computeMatches [⟨"", "/Trade", "GET", "g"⟩, ⟨"", "/trade", "GET", "g"⟩]
      []).map (fun r => r.path) = ["/Trade", "/trade"] := by
  constructor
  · decide
  · rw [computeMatches_eq_eval]
    decide

/-- Helper for C9: a common head run is no longer than the left list. -/
theorem headRun_le_left : ∀ (a b : List Char), headRun a b ≤ a.length := by
  intro a
  induction a with
  | nil => intro b; cases b <;> simp [headRun]
  | cons x xs ih =>
      intro b
      cases b with
      | nil => simp [headRun]
      | cons y ys =>
          simp only [headRun, List.length_cons]
          split
          · have := ih ys
            omega
          · omega

/-- Helper for C9: `natMax` is bounded by any bound on the list members. -/
theorem natMax_le {l : List Nat} {n : Nat} (h : ∀ x ∈ l, x ≤ n) : natMax l ≤ n := by
  induction l with
  | nil => simp [natMax]
  | cons x xs ih =>
      simp only [natMax, List.foldr_cons]
      have h1 : x ≤ n := h x (List.mem_cons_self x xs)
      have h2 : natMax xs ≤ n := ih (fun y hy => h y (List.mem_cons_of_mem x hy))
      simp only [natMax] at h2
      omega

/-- Helper for C9: the longest common substring is no longer than the left
string. -/
theorem lcsLen_le_left (a b : List Char) : lcsLen a b ≤ a.length := by
  unfold lcsLen
  apply natMax_le
  intro x hx
  rcases List.mem_map.mp hx with ⟨sa, hsa, rfl⟩
  apply natMax_le
  intro y hy
  rcases List.mem_map.mp hy with ⟨sb, _, rfl⟩
  have h1 : headRun sa sb ≤ sa.length := headRun_le_left sa sb
  have h2 : sa.length ≤ a.length :=
    ((List.mem_tails sa a).mp hsa).length_le
  omega

/-- Helper for C9: the raw candidate score is bounded by
`tokens*10 + length + 5*(number of keywords longer than 3)`. -/
theorem scoreOf_le (apiClean : List Char) (apiTokens keywords : List (List Char))
    (pClean : List Char) (pTokens : List (List Char)) :
    scoreOf apiClean apiTokens keywords pClean pTokens ≤
      apiTokens.length * 10 + apiClean.length +
        5 * keywords.countP (fun kw => decide (3 < kw.length)) := by
  simp only [scoreOf]
  have h1 : apiTokens.countP (fun t => pTokens.contains t) ≤ apiTokens.length :=
    List.countP_le_length _
  have h2 : lcsLen apiClean pClean ≤ apiClean.length := lcsLen_le_left _ _
  have h3 : keywords.countP
        (fun kw => decide (3 < kw.length) && containsSub pClean kw) ≤
      keywords.countP (fun kw => decide (3 < kw.length)) := by
    apply List.countP_mono_left
    intro kw _ hkw
    exact (Bool.and_eq_true _ _ |>.mp hkw).1
  omega

/-- Helper for C9: every final best candidate of the loop obeys any bound
that holds for all candidate scores and for the initial accumulator. -/
theorem findLoopNat_score_le (apiClean : List Char)
    (apiTokens keywords : List (List Char)) (B : Nat)
    (hB : ∀ p : String, scoreOf apiClean apiTokens keywords (policyClean p)
      (tokensOf (policyClean p)) ≤ B) :
    ∀ (l : List String) (b : Option BestCand),
      (∀ bb, b = some bb → bb.score ≤ B) →
      ∀ bb, findLoopNat apiClean apiTokens keywords l b = .best bb → bb.score ≤ B := by
  intro l
  induction l with
  | nil =>
      intro b hb bb h
      cases b with
      | none => exact absurd h (by simp [findLoopNat])
      | some x =>
          simp only [findLoopNat, LoopRes.best.injEq] at h
          exact h ▸ hb x rfl
  | cons p rest ih =>
      intro b hb bb h
      simp only [findLoopNat] at h
      by_cases hc : policyClean p = apiClean
      · rw [if_pos hc] at h
        exact absurd h (by simp)
      · rw [if_neg hc] at h
        refine ih _ ?_ bb h
        intro bb' hbb'
        cases b with
        | none =>
            simp only [updateBest] at hbb'
            rcases Option.some.inj hbb' with rfl
            exact hB p
        | some old =>
            simp only [updateBest] at hbb'
            by_cases hcond : scoreOf apiClean apiTokens keywords (policyClean p)
                (tokensOf (policyClean p)) > old.score ∨
              (scoreOf apiClean apiTokens keywords (policyClean p)
                  (tokensOf (policyClean p)) = old.score ∧
                (policyClean p).length > old.tieBreak)
            · rw [if_pos hcond] at hbb'
              rcases Option.some.inj hbb' with rfl
              exact hB p
            · rw [if_neg hcond] at hbb'
              rcases Option.some.inj hbb' with rfl
              exact hb old rfl

/-- C9 (amended): the confidence score is always nonnegative, and it lies in
`[0, 1]` whenever the handler name has at most 10 keywords longer than three
characters (so that the method bonus cannot exceed its budgeted `+50` in the
theoretical maximum).  Without that bound the score can exceed 1, see the
counterexample. -/
theorem c9_score_range_amended (apiPath javaMethodName : String)
    (pps : List String)
    (hK : (methodKeywords javaMethodName).countP
      (fun kw => decide (3 < kw.length)) ≤ 10) :
    0 ≤ (findBestPolicyMatchWithScore apiPath javaMethodName pps).score ∧
    (findBestPolicyMatchWithScore apiPath javaMethodName pps).score ≤ 1 := by
  rw [findBest_eq_eval]
  cases h : findBestEval apiPath javaMethodName pps with
  | exact p => norm_num
  | noCand => norm_num
  | best b =>
      have hb : b.score ≤ theoMax apiPath := by
        unfold findBestEval at h
        by_cases hc : apiPath = "" ∨ pps = []
        · rw [if_pos hc] at h
          exact absurd h (by simp)
        · rw [if_neg hc] at h
          have hB : ∀ p : String,
              scoreOf (normalizeList apiPath.data)
                (tokensOf (normalizeList apiPath.data))
                (methodKeywords javaMethodName) (policyClean p)
                (tokensOf (policyClean p)) ≤ theoMax apiPath := by
            intro p
            have hs := scoreOf_le (normalizeList apiPath.data)
              (tokensOf (normalizeList apiPath.data))
              (methodKeywords javaMethodName) (policyClean p)
              (tokensOf (policyClean p))
            unfold theoMax
            omega
          exact findLoopNat_score_le _ _ _ (theoMax apiPath) hB pps none
            (fun bb hbb => by exact absurd hbb (by simp)) b h
      constructor
      · positivity
      · rw [div_le_one (by exact_mod_cast theoMax_pos apiPath)]
        exact_mod_cast hb

/-- Counterexample for C9 as stated: a handler name with 13 keywords of
length 4, all occurring in the candidate path, earns a 65-point bonus while
the theoretical maximum only budgets 50 for it; the returned confidence
score is `65/61 > 1`. -/
theorem c9_score_range_counterexample :
    (findBestPolicyMatchWithScore "/x"
      "aaab_aaac_aaad_aaae_aaaf_aaag_aaah_aaaj_aaak_aaal_aaam_aaan_aaap"
      ["/aaabaaacaaadaaaeaaafaaagaaahaaajaaakaaalaaamaaanaaap"]).score = 65 / 61 ∧
    ¬ ((65 : ℚ) / 61 ≤ 1) := by
  constructor
  · rw [findBest_eq_eval,
      show findBestEval "/x"
          "aaab_aaac_aaad_aaae_aaaf_aaag_aaah_aaaj_aaak_aaal_aaam_aaan_aaap"
          ["/aaabaaacaaadaaaeaaafaaagaaahaaajaaakaaalaaamaaanaaap"] =
        .best ⟨"/aaabaaacaaadaaaeaaafaaagaaahaaajaaakaaalaaamaaanaaap", 65, 52⟩
        from by decide,
      show theoMax "/x" = 61 from by decide]
    norm_num
  · norm_num

/-- Witness for C9 (amended) at a concrete input with one long keyword. -/
theorem c9_score_range_amended_witness :
    (methodKeywords "getTradeDetails").countP
      (fun kw => decide (3 < kw.length)) ≤ 10 ∧
    (0 ≤ (findBestPolicyMatchWithScore "/trade/123" "getTradeDetails"
        ["/trade"]).score ∧
      (findBestPolicyMatchWithScore "/trade/123" "getTradeDetails"
        ["/trade"]).score ≤ 1) :=
  ⟨by decide,
    c9_score_range_amended "/trade/123" "getTradeDetails" ["/trade"] (by decide)⟩

/-- Helper for C8: ASCII lower-casing is idempotent on characters. -/
theorem toLower_toLower (c : Char) : c.toLower.toLower = c.toLower := by
  by_cases h : c.toNat ≥ 65 ∧ c.toNat ≤ 90
  · have e : c.toLower = Char.ofNat (c.toNat + 32) := by
      simp only [Char.toLower]
      rw [if_pos h]
    rw [e]
    obtain ⟨h1, h2⟩ := h
    generalize hg : c.toNat = n at h1 h2
    interval_cases n <;> decide
  · have e : c.toLower = c := by
      simp only [Char.toLower]
      rw [if_neg h]
    rw [e]
    exact e

/-- Helper for C8: prefix stripping only drops characters. -/
theorem stripCtrm_subset (l : List Char) : stripCtrm l ⊆ l := by
  unfold stripCtrm
  split_ifs <;> first | exact List.drop_subset _ _ | exact fun _ h => h

/-- Helper for C8: prefix stripping only drops characters. -/
theorem stripApi_subset (l : List Char) : stripApi l ⊆ l := by
  unfold stripApi
  split_ifs <;> first | exact List.drop_subset _ _ | exact fun _ h => h

/-- Helper for C8: the remainder after a version-segment match is a sublist
of the input. -/
theorem matchVer_sublist {l r : List Char} (h : matchVer l = some r) :
    List.Sublist r l := by
  rw [matchVer.eq_def] at h
  split at h
  · rename_i c rest
    split at h
    · rename_i hd
      split at h
      · rename_i r0 heq
        have hr : r0 = r := Option.some.inj h
        have s1 : List.Sublist r (rest.dropWhile Char.isDigit) := by
          rw [heq, hr]
          exact List.sublist_cons_self '/' r
        have s2 : List.Sublist r rest :=
          s1.trans (List.dropWhile_sublist Char.isDigit)
        exact ((s2.cons _).cons _).cons _
      · rename_i d r2 heq
        split at h
        · rename_i hd2
          split at h
          · rename_i r3 heq2
            have hr : r3 = r := Option.some.inj h
            have s1 : List.Sublist r (r2.dropWhile Char.isDigit) := by
              rw [heq2, hr]
              exact List.sublist_cons_self '/' r
            have s2 : List.Sublist r r2 :=
              s1.trans (List.dropWhile_sublist Char.isDigit)
            have s3 : List.Sublist r (rest.dropWhile Char.isDigit) := by
              rw [heq]
              exact (s2.cons _).cons _
            have s4 : List.Sublist r rest :=
              s3.trans (List.dropWhile_sublist Char.isDigit)
            exact ((s4.cons _).cons _).cons _
          · exact absurd h (by simp)
        · exact absurd h (by simp)
      · exact absurd h (by simp)
    · exact absurd h (by simp)
  · exact absurd h (by simp)

/-- Helper for C8: every character emitted by the version replacement is a
slash or a character of the input. -/
theorem replaceVersionsAux_mem :
    ∀ (n : Nat) (l : List Char) (c : Char), c ∈ replaceVersionsAux n l →
      c = '/' ∨ c ∈ l := by
  intro n
  induction n with
  | zero => intro l c h; exact Or.inr h
  | succ n ih =>
      intro l c h
      cases l with
      | nil => exact absurd h (List.not_mem_nil c)
      | cons a rest =>
          simp only [replaceVersionsAux] at h
          cases hm : matchVer (a :: rest) with
          | some r =>
              rw [hm] at h
              rcases List.mem_cons.mp h with rfl | h'
              · exact Or.inl rfl
              · rcases ih r c h' with h'' | h''
                · exact Or.inl h''
                · exact Or.inr ((matchVer_sublist hm).subset h'')
          | none =>
              rw [hm] at h
              rcases List.mem_cons.mp h with rfl | h'
              · exact Or.inr (List.mem_cons_self _ _)
              · rcases ih rest c h' with h'' | h''
                · exact Or.inl h''
                · exact Or.inr (List.mem_cons_of_mem a h'')

/-- Helper for C8: when no position matches the version regex, the global
replacement is the identity. -/
theorem replaceVersionsAux_id :
    ∀ (n : Nat) (l : List Char), noVersionSeg l = true →
      replaceVersionsAux n l = l := by
  intro n
  induction n with
  | zero => intro l _; rfl
  | succ n ih =>
      intro l h
      cases l with
      | nil => rfl
      | cons a rest =>
          have hm : matchVer (a :: rest) = none := by
            have hall := (List.all_eq_true.mp h) (a :: rest)
              ((List.mem_tails _ _).mpr (List.suffix_refl _))
            exact Option.isNone_iff_eq_none.mp hall
          have hrest : noVersionSeg rest = true := by
            unfold noVersionSeg at h ⊢
            rw [List.tails_cons, List.all_cons] at h
            exact (Bool.and_eq_true _ _ |>.mp h).2
          simp only [replaceVersionsAux]
          rw [hm, ih rest hrest]

/-- Helper for C8: edge-slash stripping only drops characters. -/
theorem stripEdgeSlashes_subset (l : List Char) : stripEdgeSlashes l ⊆ l := by
  simp only [stripEdgeSlashes]
  have h1 : (match l with
      | '/' :: rest => rest
      | other => other) ⊆ l := by
    split
    · exact (List.sublist_cons_self _ _).subset
    · exact fun _ h => h
  split_ifs
  · exact fun c hc => h1 (List.dropLast_subset _ hc)
  · exact h1

/-- Helper for C8: every character of a normalised path is lower-case-fixed
(it is a slash or the lower-casing of an input character). -/
theorem normalizeList_lower (l : List Char) :
    ∀ c ∈ normalizeList l, c.toLower = c := by
  intro c hc
  unfold normalizeList at hc
  have hc1 := stripEdgeSlashes_subset _ hc
  unfold replaceVersions at hc1
  rcases replaceVersionsAux_mem _ _ _ hc1 with rfl | hc2
  · decide
  · have hc3 := stripApi_subset _ hc2
    have hc4 := stripCtrm_subset _ hc3
    rcases List.mem_map.mp hc4 with ⟨d, _, rfl⟩
    exact toLower_toLower d

/-- C8 (amended): `normalizePath` is idempotent on every input whose
normalised form is inert under each rewriting stage: no residual
`ctrm-api/api` or `api` prefix (with optional slashes), no residual
`/v<digits>(.<digits>)?/` segment, and no leading or trailing slash.
(In general idempotence fails, see the counterexample: a second application
can strip further prefixes, version segments or slashes.) -/
theorem c8_idempotence_amended (x : String)
    (h1 : stripCtrm (normalizeList x.data) = normalizeList x.data)
    (h2 : stripApi (normalizeList x.data) = normalizeList x.data)
    (h3 : noVersionSeg (normalizeList x.data) = true)
    (h4 : stripEdgeSlashes (normalizeList x.data) = normalizeList x.data) :
    normalizePath (normalizePath x) = normalizePath x := by
  have hlow : (normalizeList x.data).map Char.toLower = normalizeList x.data := by
    calc (normalizeList x.data).map Char.toLower
        = (normalizeList x.data).map id :=
          List.map_congr_left (normalizeList_lower x.data)
      _ = normalizeList x.data := List.map_id _
  have key : normalizeList (normalizeList x.data) = normalizeList x.data := by
    conv_lhs => rw [normalizeList]
    rw [hlow, h1, h2]
    rw [show replaceVersions (normalizeList x.data) =
        replaceVersionsAux (normalizeList x.data).length (normalizeList x.data)
      from rfl]
    rw [replaceVersionsAux_id _ _ h3, h4]
  unfold normalizePath
  rw [show (⟨normalizeList x.data⟩ : String).data = normalizeList x.data from rfl,
    key]

/-- Counterexample for C8 as stated: `normalizePath "apiapi" = "api"`, but a
second application strips the now-exposed `api` prefix again, giving `""`. -/
theorem c8_idempotence_counterexample :
    normalizePath "apiapi" = "api" ∧ normalizePath (normalizePath "apiapi") = "" ∧
    ("" : String) ≠ "api" :=
  ⟨by decide, by decide, by decide⟩

/-- Witness for C8 (amended) at the concrete input `"/Trade/123"`, whose
normalised form `trade/123` is inert under every stage. -/
theorem c8_idempotence_amended_witness :
    stripCtrm (normalizeList "/Trade/123".data) = normalizeList "/Trade/123".data ∧
    stripApi (normalizeList "/Trade/123".data) = normalizeList "/Trade/123".data ∧
    noVersionSeg (normalizeList "/Trade/123".data) = true ∧
    stripEdgeSlashes (normalizeList "/Trade/123".data) =
      normalizeList "/Trade/123".data ∧
    normalizePath (normalizePath "/Trade/123") = normalizePath "/Trade/123" :=
  ⟨by decide, by decide, by decide, by decide,
    c8_idempotence_amended "/Trade/123" (by decide) (by decide) (by decide)
      (by decide)⟩

end JsonPathCraft
